/-
Verification of the bucketed sliding aggregator, segment tree and scoring
engine of the zmqNotifier repository.

Shallow embedding conventions:
* `datetime` values and `Decimal` prices are modelled as exact rationals
  (`ℚ`); timestamps are seconds since the epoch 1970-01-01, so the epoch
  itself is `0` and a `timedelta` is a rational number of seconds.
* `Decimal("Infinity")` / `Decimal("-Infinity")` sentinels are modelled as
  `none` in an `Option ℚ` (for a minimum, `none` means `+∞`; for a maximum,
  `none` means `-∞`).
* Python exceptions are modelled with `Except String`.
* Python object identity of `WindowPoint`s (the `is` test used during
  expiry) is modelled by a unique `pid` tag attached at creation time.
* Loops are modelled as structural recursions; binary-search / divide and
  conquer loops take an explicit fuel argument that is always instantiated
  large enough (the fuel-exhausted branch is unreachable for the actual
  calls, which is proved where it matters).
-/
import Mathlib

deriving instance DecidableEq for Except

namespace ZmqNotifier

/-! ## Aggregate values

`Val` is the `(min_value, max_value, max_count)` triple manipulated by the
segment tree and by `query_min_max`.  `none` in the first component is the
`+∞` sentinel, `none` in the second the `-∞` sentinel. -/

abbrev Val : Type := Option ℚ × Option ℚ × ℕ

/-- The neutral element `(Decimal("Infinity"), Decimal("-Infinity"), 0)`. -/
def neutralVal : Val := (none, none, 0)

/-- Minimum where `none` is `+∞` (mirrors `min` on `Decimal` with the
`Infinity` sentinel). -/
def minTop : Option ℚ → Option ℚ → Option ℚ
  | none, b => b
  | some x, none => some x
  | some x, some y => some (min x y)

/-- Maximum where `none` is `-∞` (mirrors `max` on `Decimal` with the
`-Infinity` sentinel). -/
def maxBot : Option ℚ → Option ℚ → Option ℚ
  | none, b => b
  | some x, none => some x
  | some x, some y => some (max x y)

/-- `SegmentTreeMinMax._merge_values`: merge two `(min, max, max_count)`
triples as `(min of mins, max of maxes, max of counts)`. -/
def mergeValues (l r : Val) : Val :=
  (minTop l.1 r.1, maxBot l.2.1 r.2.1, max l.2.2 r.2.2)

/-! ## `sliding_windows.py` : `SlidingWindowMinMax` -/

/-- `WindowPoint` from `sliding_windows.py`; `pid` models Python object
identity (each `add` creates a fresh object). -/
structure WindowPoint where
  pid : ℕ
  timestamp : ℚ
  value : ℚ
deriving DecidableEq, Repr

/-- State of `SlidingWindowMinMax`: the point deque and the two monotonic
candidate deques, plus the counter handing out fresh `pid`s. -/
structure SlidingWindowMinMax where
  window : ℚ
  points : List WindowPoint
  minCandidates : List WindowPoint
  maxCandidates : List WindowPoint
  nextId : ℕ
deriving DecidableEq, Repr

namespace SlidingWindowMinMax

/-- A freshly constructed `SlidingWindowMinMax(window=w)` (the constructor
also rejects `w ≤ 0`; reachable aggregator states only ever build it with
`w = 86400`, one day). -/
def init (w : ℚ) : SlidingWindowMinMax := ⟨w, [], [], [], 0⟩

/-- Pop elements from the back of a deque while they satisfy `p`
(the `while deque and p(deque[-1]): deque.pop()` pattern). -/
def dropBackWhile (p : WindowPoint → Bool) (l : List WindowPoint) :
    List WindowPoint :=
  (l.reverse.dropWhile p).reverse

/-- `if candidates and candidates[0] is expired: candidates.popleft()` —
the `is` identity test is the `pid` equality. -/
def popFrontIfPid (q : WindowPoint) : List WindowPoint → List WindowPoint
  | m :: ms => if m.pid = q.pid then ms else m :: ms
  | [] => []

/-- `_expire`: pop expired points from the front of the point deque,
popping the front of a candidate deque when it is (`is`-identical to) the
expired point.  Returns the new `(points, min_candidates, max_candidates)`. -/
def expireLoop (cutoff : ℚ) :
    List WindowPoint → List WindowPoint → List WindowPoint →
    List WindowPoint × List WindowPoint × List WindowPoint
  | [], mins, maxs => ([], mins, maxs)
  | q :: rest, mins, maxs =>
    if q.timestamp ≤ cutoff then
      expireLoop cutoff rest (popFrontIfPid q mins) (popFrontIfPid q maxs)
    else (q :: rest, mins, maxs)

/-- `SlidingWindowMinMax.add`. -/
def add (w : SlidingWindowMinMax) (timestamp value : ℚ) :
    Except String SlidingWindowMinMax :=
  let bad : Bool := match w.points.getLast? with
    | some q => decide (timestamp < q.timestamp)
    | none => false
  if bad then .error "timestamps must be non-decreasing"
  else
    let point : WindowPoint := ⟨w.nextId, timestamp, value⟩
    let mins := dropBackWhile (fun c => value ≤ c.value) w.minCandidates ++ [point]
    let maxs := dropBackWhile (fun c => c.value ≤ value) w.maxCandidates ++ [point]
    let pts := w.points ++ [point]
    let res := expireLoop (timestamp - w.window) pts mins maxs
    .ok ⟨w.window, res.1, res.2.1, res.2.2, w.nextId + 1⟩

/-- `current_min`: front of the min-candidate deque. -/
def current_min (w : SlidingWindowMinMax) : Except String WindowPoint :=
  match w.minCandidates.head? with
  | some m => .ok m
  | none => .error "window is empty"

/-- `current_max`: front of the max-candidate deque. -/
def current_max (w : SlidingWindowMinMax) : Except String WindowPoint :=
  match w.maxCandidates.head? with
  | some m => .ok m
  | none => .error "window is empty"

end SlidingWindowMinMax

/-! ## `tick_agg.py` : `Bucket` -/

/-- `Bucket` dataclass.  `stop` is the Python field `end` (a Lean keyword).
`min_value = none` / `max_value = none` are the `±Infinity` defaults of an
empty bucket. -/
structure Bucket where
  start : ℚ
  stop : ℚ
  min_value : Option ℚ := none
  max_value : Option ℚ := none
  count : ℕ := 0
deriving DecidableEq, Repr

/-- `Bucket.is_empty`. -/
def Bucket.is_empty (b : Bucket) : Prop := b.count = 0

instance : Decidable (Bucket.is_empty b) := decidable_of_iff (b.count = 0) Iff.rfl

instance : Inhabited Bucket := ⟨⟨0, 0, none, none, 0⟩⟩

/-! ## `segment_tree.py` : `SegmentTreeMinMax`

The flat node array (Python list of size `4n`, pre-filled with the neutral
element) is modelled as a total function `ℕ → Val`; all reads and writes the
Python code performs are at in-bounds indices, so the two views agree. -/

namespace SegmentTreeMinMax

/-- Leaf value for bucket index `i`: an empty bucket leaves the neutral
element in place, a non-empty bucket contributes its `(min, max, count)`. -/
def leafVal (bs : List Bucket) (i : ℕ) : Val :=
  match bs.get? i with
  | some b => if b.count = 0 then neutralVal else (b.min_value, b.max_value, b.count)
  | none => neutralVal

/-- `_build`, fuelled: recursively build the subtree of `node` covering the
inclusive bucket index range `[s, e]`.  `_build` is only ever invoked with
`s ≤ e` and with fuel exceeding `e - s`, so the `fuel = 0` branch and the
`e < s` half of the base case are unreachable. -/
def buildAux (bs : List Bucket) : ℕ → (ℕ → Val) → ℕ → ℕ → ℕ → (ℕ → Val)
  | 0, tree, _, _, _ => tree
  | fuel + 1, tree, node, s, e =>
    if e ≤ s then
      Function.update tree node (leafVal bs s)
    else
      let mid := (s + e) / 2
      let t1 := buildAux bs fuel tree (2 * node + 1) s mid
      let t2 := buildAux bs fuel t1 (2 * node + 2) (mid + 1) e
      Function.update t2 node (mergeValues (t2 (2 * node + 1)) (t2 (2 * node + 2)))

/-- `__init__`: build the tree from the bucket deque (the `4n`-slot array is
pre-filled with the neutral element; `n = 0` keeps an empty array). -/
def buildTree (bs : List Bucket) : ℕ → Val :=
  if bs.length = 0 then fun _ => neutralVal
  else buildAux bs bs.length (fun _ => neutralVal) 0 0 (bs.length - 1)

/-- `_query_range`, fuelled: recursive range query over `[query_left,
query_right]` from `node` covering `[node_start, node_end]`. -/
def queryRange (tree : ℕ → Val) :
    ℕ → ℕ → ℕ → ℕ → ℕ → ℕ → Val
  | 0, _, _, _, _, _ => neutralVal
  | fuel + 1, node, node_start, node_end, query_left, query_right =>
    if query_right < node_start ∨ node_end < query_left then neutralVal
    else if query_left ≤ node_start ∧ node_end ≤ query_right then tree node
    else
      let mid := (node_start + node_end) / 2
      mergeValues
        (queryRange tree fuel (2 * node + 1) node_start mid query_left query_right)
        (queryRange tree fuel (2 * node + 2) (mid + 1) node_end query_left query_right)

/-- `SegmentTreeMinMax(buckets).query(left_idx, right_idx)`: for `n = 0`
return the neutral element outright; otherwise `_validate_range` raises
`ValueError` on `left < 0 ∨ right ≥ n ∨ left > right`, and the recursive
query runs from the root. -/
def query (bs : List Bucket) (left_idx right_idx : ℤ) : Except String Val :=
  let n := bs.length
  if n = 0 then .ok neutralVal
  else if left_idx < 0 ∨ (n : ℤ) ≤ right_idx ∨ right_idx < left_idx then
    .error "Invalid range"
  else
    .ok (queryRange (buildTree bs) n 0 0 (n - 1) left_idx.toNat right_idx.toNat)

end SegmentTreeMinMax

/-! ## `tick_agg.py` : `BucketedSlidingAggregator` -/

structure BucketedSlidingAggregator where
  bucket_span : ℚ
  max_window : Option ℕ
  buckets : List Bucket
  active_window : SlidingWindowMinMax
  current_bucket_start : Option ℚ
deriving DecidableEq, Repr

namespace BucketedSlidingAggregator

/-- `__init__(bucket_span, max_window)` after the `bucket_span > 0` check:
empty history, a fresh one-day active window, no current bucket.  The lazy
segment tree plus dirty flag is not part of the state: every query rebuilds
the tree from the current bucket deque, which is exactly what the dirty-flag
protocol serves (the tree is never served stale). -/
def init (bucket_span : ℚ) (max_window : Option ℕ) : BucketedSlidingAggregator :=
  ⟨bucket_span, max_window, [], SlidingWindowMinMax.init 86400, none⟩

/-- `_align_to_bucket_boundary`: `epoch + int((t - epoch) // span) * span`
with `epoch = 1970-01-01 = 0` seconds. -/
def alignToBucketBoundary (span t : ℚ) : ℚ :=
  0 + (⌊(t - 0) / span⌋ : ℚ) * span

/-- `_is_new_bucket`. -/
def isNewBucket (a : BucketedSlidingAggregator) (bucket_start : ℚ) : Bool :=
  a.current_bucket_start ≠ none ∧ a.current_bucket_start ≠ some bucket_start

/-- `_validate_timestamp`'s rejection condition: the timestamp precedes the
last condensed bucket's `end`, or the last active-window point. -/
def staleTimestamp (a : BucketedSlidingAggregator) (timestamp : ℚ) : Bool :=
  (match a.buckets.getLast? with
    | some b => decide (timestamp < b.stop)
    | none => false) ||
  (match a.active_window.points.getLast? with
    | some p => decide (timestamp < p.timestamp)
    | none => false)

/-- `_evict_old_buckets`'s loop: `while len(buckets) > max_window: popleft()`. -/
def evictLoop (m : ℕ) : List Bucket → List Bucket
  | [] => []
  | b :: rest => if m < (b :: rest).length then evictLoop m rest else b :: rest

/-- `_evict_old_buckets`. -/
def evictOldBuckets (max_window : Option ℕ) (bs : List Bucket) : List Bucket :=
  match max_window with
  | none => bs
  | some m => evictLoop m bs

/-- `_create_bucket_from_active_window` (caller guarantees
`current_bucket_start` is set; the candidate deques are non-empty whenever
the point deque is, so `current_min`/`current_max` cannot raise). -/
def createBucketFromActiveWindow (a : BucketedSlidingAggregator) (cbs : ℚ) :
    Except String Bucket :=
  let bucket_end := cbs + a.bucket_span
  match a.active_window.points with
  | [] => .ok ⟨cbs, bucket_end, none, none, 0⟩
  | _ :: _ =>
    match a.active_window.minCandidates.head?, a.active_window.maxCandidates.head? with
    | some mn, some mx =>
      .ok ⟨cbs, bucket_end, some mn.value, some mx.value, a.active_window.points.length⟩
    | _, _ => .error "window is empty"

/-- `_condense_active_bucket`: snapshot the active window into a `Bucket`,
append, evict, reset the active window. -/
def condenseActiveBucket (a : BucketedSlidingAggregator) :
    Except String BucketedSlidingAggregator :=
  match a.current_bucket_start with
  | none => .ok a
  | some cbs =>
    match createBucketFromActiveWindow a cbs with
    | .error e => .error e
    | .ok bucket =>
      .ok ⟨a.bucket_span, a.max_window, evictOldBuckets a.max_window (a.buckets ++ [bucket]),
           SlidingWindowMinMax.init 86400, a.current_bucket_start⟩

/-- `BucketedSlidingAggregator.add`. -/
def add (a : BucketedSlidingAggregator) (timestamp value : ℚ) :
    Except String BucketedSlidingAggregator :=
  if staleTimestamp a timestamp then
    .error "timestamps must be non-decreasing"
  else
    let bucket_start := alignToBucketBoundary a.bucket_span timestamp
    let step1 : Except String BucketedSlidingAggregator :=
      if isNewBucket a bucket_start then
        match condenseActiveBucket a with
        | .error e => .error e
        | .ok c =>
          .ok ⟨c.bucket_span, c.max_window, c.buckets, c.active_window, some bucket_start⟩
      else .ok a
    match step1 with
    | .error e => .error e
    | .ok a1 =>
      let a2 : BucketedSlidingAggregator :=
        if a1.current_bucket_start = none then
          ⟨a1.bucket_span, a1.max_window, a1.buckets, a1.active_window, some bucket_start⟩
        else a1
      match a2.active_window.add timestamp value with
      | .error e => .error e
      | .ok w => .ok ⟨a2.bucket_span, a2.max_window, a2.buckets, w, a2.current_bucket_start⟩

/-- `_get_active_window_stats`: `(min_value, min_ts, max_value, max_ts,
count)`, or the neutral `(inf, None, -inf, None, 0)` if the window is
empty. -/
def getActiveWindowStats (a : BucketedSlidingAggregator) :
    Option ℚ × Option ℚ × Option ℚ × Option ℚ × ℕ :=
  match a.active_window.minCandidates.head?, a.active_window.maxCandidates.head? with
  | some mp, some xp =>
    (some mp.value, some mp.timestamp, some xp.value, some xp.timestamp,
     a.active_window.points.length)
  | _, _ => (none, none, none, none, 0)

/-- `_find_first_bucket_in_range`'s binary-search loop (fuelled; the fuel is
always the list length, which bounds the iteration count). -/
def findLoop (bs : List Bucket) (lb : ℚ) : ℕ → ℕ → ℕ → ℕ
  | 0, left, _ => left
  | fuel + 1, left, right =>
    if left < right then
      let mid := (left + right) / 2
      if (bs.getD mid default).start < lb then findLoop bs lb fuel (mid + 1) right
      else findLoop bs lb fuel left mid
    else left

/-- `_find_first_bucket_in_range`: leftmost bucket with
`start ≥ lookback_start`, `none` (Python `-1`) when there is none. -/
def findFirstBucketInRange (bs : List Bucket) (lookback_start : ℚ) : Option ℕ :=
  if bs.isEmpty then none
  else
    let left := findLoop bs lookback_start bs.length 0 bs.length
    if left < bs.length ∧ lookback_start ≤ (bs.getD left default).start then some left
    else none

/-- `_query_historical_buckets` (with the tree rebuilt from the current
bucket deque, see `init`). -/
def queryHistoricalBuckets (a : BucketedSlidingAggregator) (num_buckets : ℕ) :
    Except String Val :=
  match a.current_bucket_start with
  | none => .ok neutralVal
  | some cbs =>
    if a.buckets.isEmpty then .ok neutralVal
    else
      let lookback_start := cbs - (num_buckets : ℚ) * a.bucket_span
      match findFirstBucketInRange a.buckets lookback_start with
      | none => .ok neutralVal
      | some left_idx =>
        SegmentTreeMinMax.query a.buckets (left_idx : ℤ) ((a.buckets.length : ℤ) - 1)

/-- `query_min_max(num_buckets)`. -/
def queryMinMax (a : BucketedSlidingAggregator) (num_buckets : ℤ) :
    Except String Val :=
  if num_buckets < 0 then .error "num_buckets must be non-negative"
  else
    let stats := getActiveWindowStats a
    let base : Val := (stats.1, stats.2.2.1, stats.2.2.2.2)
    let merged : Except String Val :=
      if 0 < num_buckets then
        match queryHistoricalBuckets a num_buckets.toNat with
        | .error e => .error e
        | .ok hist =>
          .ok (minTop base.1 hist.1, maxBot base.2.1 hist.2.1, max base.2.2 hist.2.2)
      else .ok base
    match merged with
    | .error e => .error e
    | .ok m => if m.1 = none then .error "window is empty" else .ok m

/-- `_compute_direction`. -/
def computeDirection (min_value : ℚ) (min_timestamp : Option ℚ)
    (max_value : ℚ) (max_timestamp : Option ℚ) : ℚ :=
  match min_timestamp, max_timestamp with
  | some mt, some xt => if mt ≤ xt then max_value - min_value else min_value - max_value
  | _, _ => 0

/-- `get_active_direction`. -/
def getActiveDirection (a : BucketedSlidingAggregator) : Except String ℚ :=
  match getActiveWindowStats a with
  | (some mv, mts, some xv, xts, _) => .ok (computeDirection mv mts xv xts)
  | _ => .error "active window is empty"

/-- `buckets_count`. -/
def bucketsCount (a : BucketedSlidingAggregator) : ℕ := a.buckets.length

/-- Fold a list of `(timestamp, value)` ticks through `add`. -/
def addAll (a : BucketedSlidingAggregator) :
    List (ℚ × ℚ) → Except String BucketedSlidingAggregator
  | [] => .ok a
  | (t, v) :: rest =>
    match a.add t v with
    | .ok a' => addAll a' rest
    | .error e => .error e

/-- Aggregator states reachable from a fresh aggregator by a sequence of
successful `add` calls. -/
def Reachable (a : BucketedSlidingAggregator) : Prop :=
  ∃ span maxw ticks, 0 < span ∧ addAll (init span maxw) ticks = .ok a

end BucketedSlidingAggregator

/-! ## `notifier.py` : `AggStates` and the scoring pass -/

/-- `AggStates` dataclass. -/
structure AggStates where
  volatility_score : ℤ := 0
  activity_score : ℤ := 0
  last_volatility_notification : ℤ := -99999
  last_activity_notification : ℤ := -99999
deriving DecidableEq, Repr

/-- `AggStates.magnitude`. -/
def AggStates.magnitude (s : AggStates) : ℤ :=
  s.volatility_score * (s.activity_score + 1)

/-- The volatility score of `_calculate`:
`max(0, floor(log2(pip_change / vol_threshold))) if pip_change >= vol_threshold else 0`.
`Int.log 2 q` is exactly `floor(log2 q)` for `q ≥ 1` (the Python code goes
through binary floating point, whose rounding is not modelled). -/
def volatilityScoreOf (vol_threshold pip_change : ℚ) : ℤ :=
  if vol_threshold ≤ pip_change then max 0 (Int.log 2 (pip_change / vol_threshold))
  else 0

/-- One timeframe's pass through the body of `SymbolTracker._calculate`,
from the measured `pip_change` on: compute the volatility score, skip when
it is zero, otherwise notify when there is no prior notification, the
cooldown has expired, or the score escalated; on notification store the new
score and timestamp.  Returns the new state and whether a notification was
emitted. -/
def calcStep (state : AggStates) (vol_threshold pip_change : ℚ)
    (current_timestamp : ℤ) (cooldown_seconds : ℚ) : AggStates × Bool :=
  let volatility_score := volatilityScoreOf vol_threshold pip_change
  if volatility_score = 0 then (state, false)
  else if 0 < volatility_score then
    if state.last_volatility_notification = -99999
        ∨ cooldown_seconds ≤ ((current_timestamp - state.last_volatility_notification : ℤ) : ℚ)
        ∨ state.volatility_score < volatility_score then
      (⟨volatility_score, state.activity_score, current_timestamp,
        state.last_activity_notification⟩, true)
    else (state, false)
  else (state, false)

/-! ## Spec-side definitions -/

/-- Modelled from the spec: brute-force linear scan of `n` buckets starting
at index `i`, where empty buckets contribute the neutral element
`(+∞, -∞, 0)` and merge is `(min of mins, max of maxes, max of counts)`. -/
def bruteForceScan (bs : List Bucket) : ℕ → ℕ → Val
  | _, 0 => neutralVal
  | i, n + 1 =>
    mergeValues
      (match bs.get? i with
        | some b => if b.count = 0 then neutralVal else (b.min_value, b.max_value, b.count)
        | none => neutralVal)
      (bruteForceScan bs (i + 1) n)

/-- Modelled from the spec: brute-force scan over the inclusive index range
`[l, r]`. -/
def bruteForceRange (bs : List Bucket) (l r : ℕ) : Val :=
  bruteForceScan bs l (r + 1 - l)

section Proofs

/- `Rat` arithmetic is `@[irreducible]` upstream, which blocks `decide` on
the concrete scenario evaluations below; restore default reducibility for
the proofs in this development. -/
attribute [local semireducible] Rat.add Rat.sub Rat.mul Rat.inv

/-! ## Merge algebra -/

theorem minTop_assoc (a b c : Option ℚ) :
    minTop (minTop a b) c = minTop a (minTop b c) := by
  cases a <;> cases b <;> cases c <;> simp [minTop, min_assoc]

theorem maxBot_assoc (a b c : Option ℚ) :
    maxBot (maxBot a b) c = maxBot a (maxBot b c) := by
  cases a <;> cases b <;> cases c <;> simp [maxBot, max_assoc]

theorem mergeValues_assoc (u v w : Val) :
    mergeValues (mergeValues u v) w = mergeValues u (mergeValues v w) := by
  simp [mergeValues, minTop_assoc, maxBot_assoc, Nat.max_assoc]

theorem mergeValues_neutral_left (v : Val) : mergeValues neutralVal v = v := by
  obtain ⟨a, b, c⟩ := v
  simp [mergeValues, neutralVal, minTop, maxBot]

theorem mergeValues_neutral_right (v : Val) : mergeValues v neutralVal = v := by
  obtain ⟨a, b, c⟩ := v
  cases a <;> cases b <;> simp [mergeValues, neutralVal, minTop, maxBot]

theorem bruteForceScan_add (bs : List Bucket) (m : ℕ) :
    ∀ (i n : ℕ), bruteForceScan bs i (m + n) =
      mergeValues (bruteForceScan bs i m) (bruteForceScan bs (i + m) n) := by
  induction m with
  | zero =>
    intro i n
    simp [bruteForceScan, mergeValues_neutral_left]
  | succ m ih =>
    intro i n
    have h1 : m + 1 + n = (m + n) + 1 := by omega
    rw [h1]
    show mergeValues _ (bruteForceScan bs (i + 1) (m + n)) = _
    rw [ih (i + 1) n, show i + 1 + m = i + m + 1 from by omega,
      show i + (m + 1) = i + m + 1 from by omega]
    conv_rhs => rw [show bruteForceScan bs i (m + 1) =
      mergeValues (match bs.get? i with
        | some b => if b.count = 0 then neutralVal else (b.min_value, b.max_value, b.count)
        | none => neutralVal) (bruteForceScan bs (i + 1) m) from rfl]
    rw [mergeValues_assoc]

theorem bruteForceRange_split (bs : List Bucket) {s mid e : ℕ}
    (h1 : s ≤ mid) (h2 : mid < e) :
    bruteForceRange bs s e =
      mergeValues (bruteForceRange bs s mid) (bruteForceRange bs (mid + 1) e) := by
  unfold bruteForceRange
  have h3 : e + 1 - s = (mid + 1 - s) + (e - mid) := by omega
  rw [h3, bruteForceScan_add]
  congr 2 <;> omega

/-! ## Heap-index geometry of the flat segment tree

`inSubtree r j` says that array slot `j` lies in the subtree rooted at slot
`r` under the `2i+1 / 2i+2` child indexing: in 1-based indexing the parent
of `j+1` is `(j+1)/2`, so `j` descends from `r` iff repeatedly halving
`j+1` reaches `r+1`. -/

def inSubtree (r j : ℕ) : Prop := ∃ d, (j + 1) / 2 ^ d = r + 1

theorem inSubtree_self (r : ℕ) : inSubtree r r := ⟨0, by simp⟩

theorem inSubtree_ge {r j : ℕ} (h : inSubtree r j) : r ≤ j := by
  obtain ⟨d, hd⟩ := h
  have := Nat.div_le_self (j + 1) (2 ^ d)
  omega

theorem inSubtree_left {r j : ℕ} (h : inSubtree (2 * r + 1) j) : inSubtree r j := by
  obtain ⟨d, hd⟩ := h
  refine ⟨d + 1, ?_⟩
  rw [pow_succ, ← Nat.div_div_eq_div_mul, hd]
  omega

theorem inSubtree_right {r j : ℕ} (h : inSubtree (2 * r + 2) j) : inSubtree r j := by
  obtain ⟨d, hd⟩ := h
  refine ⟨d + 1, ?_⟩
  rw [pow_succ, ← Nat.div_div_eq_div_mul, hd]
  omega

theorem sibling_disjoint {r j : ℕ}
    (h1 : inSubtree (2 * r + 1) j) (h2 : inSubtree (2 * r + 2) j) : False := by
  obtain ⟨d1, hd1⟩ := h1
  obtain ⟨d2, hd2⟩ := h2
  rcases le_total d1 d2 with h | h
  · have key : (j + 1) / 2 ^ d2 = ((j + 1) / 2 ^ d1) / 2 ^ (d2 - d1) :=
      calc (j + 1) / 2 ^ d2 = (j + 1) / 2 ^ (d1 + (d2 - d1)) := by
            rw [show d1 + (d2 - d1) = d2 from by omega]
        _ = ((j + 1) / 2 ^ d1) / 2 ^ (d2 - d1) := by
            rw [pow_add, ← Nat.div_div_eq_div_mul]
    rw [hd1, hd2] at key
    rcases Nat.eq_zero_or_pos (d2 - d1) with hz | hp
    · rw [hz, pow_zero, Nat.div_one] at key
      omega
    · have h2k : (2 : ℕ) ≤ 2 ^ (d2 - d1) := by
        calc (2 : ℕ) = 2 ^ 1 := (pow_one 2).symm
          _ ≤ 2 ^ (d2 - d1) := Nat.pow_le_pow_right (by omega) hp
      have hle : (2 * r + 1 + 1) / 2 ^ (d2 - d1) ≤ (2 * r + 1 + 1) / 2 :=
        Nat.div_le_div_left h2k (by omega)
      omega
  · have key : (j + 1) / 2 ^ d1 = ((j + 1) / 2 ^ d2) / 2 ^ (d1 - d2) :=
      calc (j + 1) / 2 ^ d1 = (j + 1) / 2 ^ (d2 + (d1 - d2)) := by
            rw [show d2 + (d1 - d2) = d1 from by omega]
        _ = ((j + 1) / 2 ^ d2) / 2 ^ (d1 - d2) := by
            rw [pow_add, ← Nat.div_div_eq_div_mul]
    rw [hd1, hd2] at key
    rcases Nat.eq_zero_or_pos (d1 - d2) with hz | hp
    · rw [hz, pow_zero, Nat.div_one] at key
      omega
    · have h2k : (2 : ℕ) ≤ 2 ^ (d1 - d2) := by
        calc (2 : ℕ) = 2 ^ 1 := (pow_one 2).symm
          _ ≤ 2 ^ (d1 - d2) := Nat.pow_le_pow_right (by omega) hp
      have hle : (2 * r + 2 + 1) / 2 ^ (d1 - d2) ≤ (2 * r + 2 + 1) / 2 :=
        Nat.div_le_div_left h2k (by omega)
      omega

/-! ## Segment tree correctness -/

namespace SegmentTreeMinMax

theorem bruteForceRange_single (bs : List Bucket) (i : ℕ) :
    bruteForceRange bs i i = leafVal bs i := by
  unfold bruteForceRange
  rw [show i + 1 - i = 1 from by omega]
  show mergeValues (leafVal bs i) neutralVal = leafVal bs i
  rw [mergeValues_neutral_right]

/-- `_build` writes only inside the subtree of `node`. -/
theorem buildAux_frame (bs : List Bucket) :
    ∀ (fuel : ℕ) (tree : ℕ → Val) (node s e j : ℕ), ¬ inSubtree node j →
      buildAux bs fuel tree node s e j = tree j := by
  intro fuel
  induction fuel with
  | zero => intro tree node s e j _; rfl
  | succ fuel ih =>
    intro tree node s e j hj
    have hjn : j ≠ node := fun hh => hj (hh ▸ inSubtree_self node)
    have hL : ¬ inSubtree (2 * node + 1) j := fun hh => hj (inSubtree_left hh)
    have hR : ¬ inSubtree (2 * node + 2) j := fun hh => hj (inSubtree_right hh)
    simp only [buildAux]
    by_cases hse : e ≤ s
    · rw [if_pos hse, Function.update_noteq hjn]
    · rw [if_neg hse]
      show Function.update
        (buildAux bs fuel (buildAux bs fuel tree (2 * node + 1) s ((s + e) / 2))
          (2 * node + 2) ((s + e) / 2 + 1) e) node _ j = tree j
      rw [Function.update_noteq hjn, ih _ _ _ _ _ hR, ih _ _ _ _ _ hL]

/-- After `_build` on `[s, e]`, the root slot holds the brute-force scan of
`[s, e]`. -/
theorem buildAux_root (bs : List Bucket) :
    ∀ (fuel : ℕ) (tree : ℕ → Val) (node s e : ℕ), s ≤ e → e - s < fuel →
      buildAux bs fuel tree node s e node = bruteForceRange bs s e := by
  intro fuel
  induction fuel with
  | zero => intro tree node s e h1 h2; omega
  | succ fuel ih =>
    intro tree node s e hse hfuel
    simp only [buildAux]
    by_cases h : e ≤ s
    · rw [if_pos h, Function.update_same]
      have he : e = s := by omega
      subst he
      rw [bruteForceRange_single]
    · rw [if_neg h]
      show Function.update
        (buildAux bs fuel (buildAux bs fuel tree (2 * node + 1) s ((s + e) / 2))
          (2 * node + 2) ((s + e) / 2 + 1) e) node
        (mergeValues
          (buildAux bs fuel (buildAux bs fuel tree (2 * node + 1) s ((s + e) / 2))
            (2 * node + 2) ((s + e) / 2 + 1) e (2 * node + 1))
          (buildAux bs fuel (buildAux bs fuel tree (2 * node + 1) s ((s + e) / 2))
            (2 * node + 2) ((s + e) / 2 + 1) e (2 * node + 2))) node
        = bruteForceRange bs s e
      rw [Function.update_same]
      have hLnotR : ¬ inSubtree (2 * node + 2) (2 * node + 1) := fun hh => by
        have := inSubtree_ge hh; omega
      rw [buildAux_frame bs fuel _ _ _ _ _ hLnotR]
      rw [ih tree (2 * node + 1) s ((s + e) / 2) (by omega) (by omega)]
      rw [ih _ (2 * node + 2) ((s + e) / 2 + 1) e (by omega) (by omega)]
      rw [← bruteForceRange_split bs (show s ≤ (s + e) / 2 from by omega)
        (show (s + e) / 2 < e from by omega)]

/-- `_query_range` only reads slots inside the subtree of `node`. -/
theorem queryRange_congr :
    ∀ (fuel : ℕ) (t t' : ℕ → Val) (node ns ne ql qr : ℕ),
      (∀ j, inSubtree node j → t j = t' j) →
      queryRange t fuel node ns ne ql qr = queryRange t' fuel node ns ne ql qr := by
  intro fuel
  induction fuel with
  | zero => intros; rfl
  | succ fuel ih =>
    intro t t' node ns ne ql qr hag
    simp only [queryRange]
    by_cases h1 : qr < ns ∨ ne < ql
    · rw [if_pos h1, if_pos h1]
    · rw [if_neg h1, if_neg h1]
      by_cases h2 : ql ≤ ns ∧ ne ≤ qr
      · rw [if_pos h2, if_pos h2, hag node (inSubtree_self node)]
      · rw [if_neg h2, if_neg h2]
        rw [ih t t' (2 * node + 1) ns ((ns + ne) / 2) ql qr
            (fun j hj => hag j (inSubtree_left hj)),
          ih t t' (2 * node + 2) ((ns + ne) / 2 + 1) ne ql qr
            (fun j hj => hag j (inSubtree_right hj))]

/-- A built parent agrees with the built left child on the left subtree. -/
theorem buildAux_agree_left (bs : List Bucket) (fuel : ℕ) (tree : ℕ → Val)
    (node s e : ℕ) (h : ¬ e ≤ s) :
    ∀ j, inSubtree (2 * node + 1) j →
      buildAux bs (fuel + 1) tree node s e j =
        buildAux bs fuel tree (2 * node + 1) s ((s + e) / 2) j := by
  intro j hj
  have hge := inSubtree_ge hj
  have hjn : j ≠ node := by omega
  have hR : ¬ inSubtree (2 * node + 2) j := fun hh => sibling_disjoint hj hh
  simp only [buildAux]
  rw [if_neg h]
  show Function.update
    (buildAux bs fuel (buildAux bs fuel tree (2 * node + 1) s ((s + e) / 2))
      (2 * node + 2) ((s + e) / 2 + 1) e) node _ j = _
  rw [Function.update_noteq hjn, buildAux_frame bs fuel _ _ _ _ _ hR]

/-- A built parent agrees with the built right child on the right subtree. -/
theorem buildAux_agree_right (bs : List Bucket) (fuel : ℕ) (tree : ℕ → Val)
    (node s e : ℕ) (h : ¬ e ≤ s) :
    ∀ j, inSubtree (2 * node + 2) j →
      buildAux bs (fuel + 1) tree node s e j =
        buildAux bs fuel (buildAux bs fuel tree (2 * node + 1) s ((s + e) / 2))
          (2 * node + 2) ((s + e) / 2 + 1) e j := by
  intro j hj
  have hge := inSubtree_ge hj
  have hjn : j ≠ node := by omega
  simp only [buildAux]
  rw [if_neg h]
  show Function.update
    (buildAux bs fuel (buildAux bs fuel tree (2 * node + 1) s ((s + e) / 2))
      (2 * node + 2) ((s + e) / 2 + 1) e) node _ j = _
  rw [Function.update_noteq hjn]

/-- `_query_range` over a freshly built subtree equals the brute-force scan
of the intersection of the node range and the query range. -/
theorem queryRange_buildAux (bs : List Bucket) :
    ∀ (fuel : ℕ) (tree : ℕ → Val) (node s e ql qr : ℕ),
      s ≤ e → e - s < fuel → ql ≤ qr →
      queryRange (buildAux bs fuel tree node s e) fuel node s e ql qr =
        if max s ql ≤ min e qr then bruteForceRange bs (max s ql) (min e qr)
        else neutralVal := by
  intro fuel
  induction fuel with
  | zero => intro tree node s e ql qr h1 h2 h3; omega
  | succ fuel ih =>
    intro tree node s e ql qr hse hfuel hql
    simp only [queryRange]
    by_cases h1 : qr < s ∨ e < ql
    · rw [if_pos h1, if_neg (by omega : ¬ max s ql ≤ min e qr)]
    · rw [if_neg h1]
      by_cases h2 : ql ≤ s ∧ e ≤ qr
      · rw [if_pos h2, buildAux_root bs (fuel + 1) tree node s e hse (by omega),
          show max s ql = s from by omega, show min e qr = e from by omega,
          if_pos hse]
      · rw [if_neg h2]
        have hlt : s < e := by omega
        rw [queryRange_congr fuel _ _ (2 * node + 1) s ((s + e) / 2) ql qr
            (buildAux_agree_left bs fuel tree node s e (by omega)),
          queryRange_congr fuel _ _ (2 * node + 2) ((s + e) / 2 + 1) e ql qr
            (buildAux_agree_right bs fuel tree node s e (by omega)),
          ih tree (2 * node + 1) s ((s + e) / 2) ql qr (by omega) (by omega) hql,
          ih _ (2 * node + 2) ((s + e) / 2 + 1) e ql qr (by omega) (by omega) hql]
        by_cases hA : qr ≤ (s + e) / 2
        · rw [if_neg (by omega : ¬ max ((s + e) / 2 + 1) ql ≤ min e qr),
            mergeValues_neutral_right,
            show min ((s + e) / 2) qr = min e qr from by omega]
        · by_cases hB : (s + e) / 2 + 1 ≤ ql
          · rw [if_neg (by omega : ¬ max s ql ≤ min ((s + e) / 2) qr),
              mergeValues_neutral_left,
              show max ((s + e) / 2 + 1) ql = max s ql from by omega]
          · have c1 : max s ql ≤ min ((s + e) / 2) qr := by omega
            have c2 : max ((s + e) / 2 + 1) ql ≤ min e qr := by omega
            rw [if_pos c1, if_pos c2,
              show min ((s + e) / 2) qr = (s + e) / 2 from by omega,
              show max ((s + e) / 2 + 1) ql = (s + e) / 2 + 1 from by omega,
              if_pos (show max s ql ≤ min e qr from by omega),
              ← bruteForceRange_split bs (show max s ql ≤ (s + e) / 2 from by omega)
                (show (s + e) / 2 < min e qr from by omega)]

end SegmentTreeMinMax

/-- A small concrete bucket history used to instantiate theorems with
hypotheses. -/
def demoBuckets : List Bucket :=
  [⟨0, 60, some 5, some 10, 2⟩, ⟨60, 120, none, none, 0⟩, ⟨120, 180, some 7, some 7, 1⟩]

/-- C1: for every sequence of buckets the tree was built from and every
valid index range `[left, right]`, `SegmentTreeMinMax.query(left, right)`
returns exactly the `(min, max, max_count)` triple of a brute-force linear
scan of those buckets over the same index range, where empty buckets
contribute the neutral element `(+∞, -∞, 0)` and merge is
`(min of mins, max of maxes, max of counts)`. -/
theorem C1_segment_tree_query_equals_brute_force (bs : List Bucket) (l r : ℕ)
    (hlr : l ≤ r) (hr : r < bs.length) :
    SegmentTreeMinMax.query bs (l : ℤ) (r : ℤ) = .ok (bruteForceRange bs l r) := by
  have hn : bs.length ≠ 0 := by omega
  simp only [SegmentTreeMinMax.query]
  rw [if_neg hn, if_neg (by omega :
    ¬ ((l : ℤ) < 0 ∨ (bs.length : ℤ) ≤ (r : ℤ) ∨ (r : ℤ) < (l : ℤ)))]
  unfold SegmentTreeMinMax.buildTree
  rw [if_neg hn]
  rw [show ((l : ℤ)).toNat = l from Int.toNat_natCast l,
    show ((r : ℤ)).toNat = r from Int.toNat_natCast r]
  rw [SegmentTreeMinMax.queryRange_buildAux bs bs.length _ 0 0 (bs.length - 1) l r
    (by omega) (by omega) hlr]
  rw [show max 0 l = l from by omega, show min (bs.length - 1) r = r from by omega,
    if_pos hlr]

/-- Witness for C1 at a concrete three-bucket history and the full range. -/
theorem C1_witness :
    SegmentTreeMinMax.query demoBuckets 0 2 = .ok (bruteForceRange demoBuckets 0 2) :=
  C1_segment_tree_query_equals_brute_force demoBuckets 0 2 (by decide) (by decide)

/-- C5 counterexample: on an empty tree (`n = 0`) the query indices
`(0, 0)` satisfy `right ≥ n`, so the claim demands a `RangeError`, but
`query` returns the neutral value without error. -/
theorem C5_counterexample :
    ([] : List Bucket).length ≤ 0 ∧
      SegmentTreeMinMax.query ([] : List Bucket) 0 0 = .ok neutralVal :=
  ⟨by decide, rfl⟩

/-- C5 amended: for a non-empty tree, `query` fails exactly when
`left < 0 ∨ right ≥ n ∨ left > right`; for `n = 0` it instead returns the
neutral element `(+∞, -∞, 0)` without validating the indices. -/
theorem C5_range_validation (bs : List Bucket) (l r : ℤ) :
    (bs.length ≠ 0 →
      ((∃ e, SegmentTreeMinMax.query bs l r = .error e) ↔
        (l < 0 ∨ (bs.length : ℤ) ≤ r ∨ l > r))) ∧
    (bs.length = 0 → SegmentTreeMinMax.query bs l r = .ok neutralVal) := by
  constructor
  · intro hn
    simp only [SegmentTreeMinMax.query]
    rw [if_neg hn]
    by_cases hc : l < 0 ∨ (bs.length : ℤ) ≤ r ∨ r < l
    · rw [if_pos hc]
      exact ⟨fun _ => hc, fun _ => ⟨"Invalid range", rfl⟩⟩
    · rw [if_neg hc]
      exact ⟨fun ⟨e, he⟩ => absurd he (by simp), fun hc' => absurd hc' hc⟩
  · intro hn
    simp only [SegmentTreeMinMax.query]
    rw [if_pos hn]

/-- Witness for C5 at a non-empty history and an out-of-range pair. -/
theorem C5_witness :
    (∃ e, SegmentTreeMinMax.query demoBuckets 5 2 = .error e) ↔
      ((5 : ℤ) < 0 ∨ (demoBuckets.length : ℤ) ≤ 2 ∨ (5 : ℤ) > 2) :=
  (C5_range_validation demoBuckets 5 2).1 (by decide)

/-- C3: a successful `add(t, v)` leaves the aggregator's current bucket
start at `epoch + floor((t - epoch)/bucket_span)·bucket_span` (epoch =
1970-01-01 = 0 in seconds), whatever the prior state was — so the bucket a
timestamp is assigned to depends only on `t` and `bucket_span`, never on
construction time or on which tick arrived first. -/
theorem C3_clock_aligned_bucket_assignment (a : BucketedSlidingAggregator)
    (t v : ℚ) (a' : BucketedSlidingAggregator) (h : a.add t v = .ok a') :
    a'.current_bucket_start =
      some (0 + (⌊(t - 0) / a.bucket_span⌋ : ℚ) * a.bucket_span) := by
  show a'.current_bucket_start =
    some (BucketedSlidingAggregator.alignToBucketBoundary a.bucket_span t)
  simp only [BucketedSlidingAggregator.add] at h
  by_cases hs : BucketedSlidingAggregator.staleTimestamp a t
  · simp [hs] at h
  · simp only [hs, if_false, Bool.false_eq_true] at h
    by_cases hb : BucketedSlidingAggregator.isNewBucket a
        (BucketedSlidingAggregator.alignToBucketBoundary a.bucket_span t)
    · simp only [hb, if_true] at h
      cases hc : BucketedSlidingAggregator.condenseActiveBucket a with
      | error e => rw [hc] at h; simp at h
      | ok c =>
        rw [hc] at h
        simp only [reduceCtorEq, reduceIte] at h
        cases hw : (SlidingWindowMinMax.add c.active_window t v) with
        | error e => simp [hw] at h
        | ok w =>
          simp only [hw] at h
          obtain rfl : _ = a' := Except.ok.inj h
          simp
    · simp only [hb, if_false, Bool.false_eq_true] at h
      by_cases hn : a.current_bucket_start = none
      · simp only [hn, if_true, reduceIte] at h
        cases hw : (SlidingWindowMinMax.add a.active_window t v) with
        | error e => simp [hw] at h
        | ok w =>
          simp only [hw] at h
          obtain rfl : _ = a' := Except.ok.inj h
          simp
      · simp only [hn, if_false, reduceIte] at h
        cases hw : (SlidingWindowMinMax.add a.active_window t v) with
        | error e => simp [hw] at h
        | ok w =>
          simp only [hw] at h
          obtain rfl : _ = a' := Except.ok.inj h
          have hnew : ¬ (a.current_bucket_start ≠ none ∧
              a.current_bucket_start ≠ some
                (BucketedSlidingAggregator.alignToBucketBoundary a.bucket_span t)) := by
            intro hcontra
            exact hb (by simp [BucketedSlidingAggregator.isNewBucket, hcontra.1, hcontra.2])
          push_neg at hnew
          simp [hnew hn]

/-- The aggregator state produced by `init 60 none` after `add(130, 10)`,
used to instantiate C3. -/
def c3ResultState : BucketedSlidingAggregator :=
  ⟨60, none, [], ⟨86400, [⟨0, 130, 10⟩], [⟨0, 130, 10⟩], [⟨0, 130, 10⟩], 1⟩, some 120⟩

/-- Witness for C3: a concrete successful `add`. -/
theorem C3_witness :
    c3ResultState.current_bucket_start =
      some (0 + (⌊((130 : ℚ) - 0) / 60⌋ : ℚ) * 60) :=
  C3_clock_aligned_bucket_assignment (BucketedSlidingAggregator.init 60 none) 130 10
    c3ResultState (by decide)

/-- C4: an `add` whose timestamp precedes the latest timestamp already
observed by the aggregator (the last condensed bucket's `end`, or the last
active-window point) fails with the ordering error.  In this functional
model the failed call returns only the error — no modified aggregator —
which mirrors that `_validate_timestamp` raises before any mutation, so
every externally observable part of the state is unchanged. -/
theorem C4_out_of_order_add_rejected (a : BucketedSlidingAggregator) (t v : ℚ)
    (h : (∃ b, a.buckets.getLast? = some b ∧ t < b.stop) ∨
         (∃ p, a.active_window.points.getLast? = some p ∧ t < p.timestamp)) :
    a.add t v = .error "timestamps must be non-decreasing" := by
  have hs : BucketedSlidingAggregator.staleTimestamp a t = true := by
    unfold BucketedSlidingAggregator.staleTimestamp
    rcases h with ⟨b, hb, hlt⟩ | ⟨p, hp, hlt⟩
    · rw [hb]; simp [hlt]
    · rw [hp]; simp [hlt]
  unfold BucketedSlidingAggregator.add
  rw [if_pos hs]

/-- Witness for C4: a state whose last condensed bucket ends at `t = 60`
rejects a tick at `t = 30`. -/
theorem C4_witness :
    BucketedSlidingAggregator.add
        ⟨60, none, [⟨0, 60, some 10, some 10, 1⟩], ⟨86400, [], [], [], 0⟩, some 60⟩
        30 1 = .error "timestamps must be non-decreasing" :=
  C4_out_of_order_add_rejected _ 30 1 (Or.inl ⟨⟨0, 60, some 10, some 10, 1⟩, rfl, by norm_num⟩)

/-- C2 (code-bug exhibit): with the supported weekly timeframe
(`bucket_span = 10080` minutes `= 604800` s), two points of the same open
bucket that are more than one day apart make the hard-coded one-day active
window silently drop the older point, so `query_min_max(0)` returns
`(20, 20, 1)` instead of the exact `(10, 20, 2)` over the two points added
during that bucket.  The second conjunct is the claim's Scenario A
(1-minute span), which the code does satisfy. -/
theorem C2_weekly_span_active_query_drops_points :
    BucketedSlidingAggregator.alignToBucketBoundary 604800 0 =
      BucketedSlidingAggregator.alignToBucketBoundary 604800 90000 ∧
    (BucketedSlidingAggregator.addAll (BucketedSlidingAggregator.init 604800 none)
        [(0, 10), (90000, 20)]).map
        (fun a => (a.queryMinMax 0, a.active_window.points.length)) =
      .ok (.ok (some 20, some 20, 1), 1) ∧
    (BucketedSlidingAggregator.addAll (BucketedSlidingAggregator.init 60 none)
        [(0, 10), (30, 5), (70, 20)]).map
        (fun a => (a.queryMinMax 0, a.queryMinMax 1)) =
      .ok (.ok (some 20, some 20, 1), .ok (some 5, some 20, 2)) := by
  refine ⟨by decide, by decide, by decide⟩

/-- The concrete deep score of Scenario E: `floor(log2(25/10)) = 1`. -/
theorem volatilityScoreOf_ten_twentyfive : volatilityScoreOf 10 25 = 1 := by
  unfold volatilityScoreOf
  rw [if_pos (by norm_num : (10 : ℚ) ≤ 25)]
  rw [show (25 : ℚ) / 10 = 5 / 2 from by norm_num]
  have h2 : Int.log 2 ((5 : ℚ) / 2) = 1 := by
    rw [Int.log_of_one_le_right _ (by norm_num : (1 : ℚ) ≤ 5 / 2)]
    rw [show ⌊(5 : ℚ) / 2⌋₊ = 2 from by
      rw [Nat.floor_eq_iff (by norm_num)]
      constructor <;> norm_num]
    exact_mod_cast Nat.log_eq_of_pow_le_of_lt_pow (by norm_num) (by norm_num)
  rw [h2]
  decide

theorem volatilityScoreOf_nonneg (thr pip : ℚ) : 0 ≤ volatilityScoreOf thr pip := by
  unfold volatilityScoreOf
  split
  · exact le_max_left 0 _
  · exact le_refl 0

/-- C6 counterexample: a non-IDLE state whose stored score equals the new
score still notifies once the cooldown has expired — the claim says a
non-IDLE state with a score that does not strictly exceed the last notified
one never produces a notification. -/
theorem C6_counterexample :
    (calcStep ⟨1, 0, 0, -99999⟩ 10 25 1000000 60).2 = true ∧
      (⟨1, 0, 0, -99999⟩ : AggStates).last_volatility_notification ≠ -99999 ∧
      ¬ (⟨1, 0, 0, -99999⟩ : AggStates).volatility_score < volatilityScoreOf 10 25 := by
  refine ⟨?_, by norm_num, ?_⟩
  · simp only [calcStep, volatilityScoreOf_ten_twentyfive]
    norm_num
  · rw [volatilityScoreOf_ten_twentyfive]
    norm_num

/-- C6 amended: a notification is emitted iff the freshly computed score is
at least 1 and (the state is IDLE — no prior notification — or the cooldown
has elapsed or the new score strictly exceeds the last notified one). -/
theorem C6_notification_condition (state : AggStates) (thr pip : ℚ)
    (now : ℤ) (cd : ℚ) :
    (calcStep state thr pip now cd).2 = true ↔
      (1 ≤ volatilityScoreOf thr pip ∧
        (state.last_volatility_notification = -99999 ∨
          cd ≤ ((now - state.last_volatility_notification : ℤ) : ℚ) ∨
          state.volatility_score < volatilityScoreOf thr pip)) := by
  have hnn := volatilityScoreOf_nonneg thr pip
  unfold calcStep
  by_cases h0 : volatilityScoreOf thr pip = 0
  · rw [if_pos h0]
    simp [h0]
  · rw [if_neg h0, if_pos (by omega : 0 < volatilityScoreOf thr pip)]
    by_cases hc : state.last_volatility_notification = -99999
        ∨ cd ≤ ((now - state.last_volatility_notification : ℤ) : ℚ)
        ∨ state.volatility_score < volatilityScoreOf thr pip
    · rw [if_pos hc]
      exact ⟨fun _ => ⟨by omega, hc⟩, fun _ => rfl⟩
    · rw [if_neg hc]
      exact ⟨fun hff => absurd hff (by simp), fun hrh => absurd hrh.2 hc⟩

/-- C7 (code-bug exhibit): the scoring pass reads only `query_min_max(0)`,
which is independent of the condensed bucket history, and the stored score
equals the deep score alone — there is no historical-lookback (broad)
factor anywhere in the computation. -/
theorem C7_stored_score_is_deep_only (a a' : BucketedSlidingAggregator)
    (h : a.active_window = a'.active_window) :
    a.queryMinMax 0 = a'.queryMinMax 0 ∧
      (calcStep ⟨0, 0, -99999, -99999⟩ 10 25 0 60).1.volatility_score =
        volatilityScoreOf 10 25 ∧
      volatilityScoreOf 10 25 = 1 := by
  refine ⟨?_, ?_, volatilityScoreOf_ten_twentyfive⟩
  · simp [BucketedSlidingAggregator.queryMinMax,
      BucketedSlidingAggregator.getActiveWindowStats, h]
  · simp only [calcStep, volatilityScoreOf_ten_twentyfive]
    norm_num

/-- Witness for C7: two aggregators sharing an active window but with
different bucket histories. -/
theorem C7_witness :
    BucketedSlidingAggregator.queryMinMax
        ⟨60, none, [], SlidingWindowMinMax.init 86400, none⟩ 0 =
      BucketedSlidingAggregator.queryMinMax
        ⟨60, none, [⟨0, 60, some 1, some 2, 3⟩], SlidingWindowMinMax.init 86400, some 60⟩ 0 :=
  (C7_stored_score_is_deep_only
    ⟨60, none, [], SlidingWindowMinMax.init 86400, none⟩
    ⟨60, none, [⟨0, 60, some 1, some 2, 3⟩], SlidingWindowMinMax.init 86400, some 60⟩ rfl).1

/-- `Int.log` on a rational agrees with `Int.log` on its real cast. -/
theorem intLog_ratCast (q : ℚ) (hq : 1 ≤ q) :
    Int.log 2 ((q : ℝ)) = Int.log 2 q := by
  have hq' : (1 : ℝ) ≤ (q : ℝ) := by exact_mod_cast hq
  have h4 : ⌊(q : ℝ)⌋₊ = ⌊q⌋₊ := by
    have h0 : (0 : ℚ) ≤ q := by linarith
    have h0' : (0 : ℝ) ≤ (q : ℝ) := by exact_mod_cast h0
    have i1 := Int.natCast_floor_eq_floor h0
    have i2 := Int.natCast_floor_eq_floor h0'
    have i3 : ⌊(q : ℝ)⌋ = ⌊q⌋ := Rat.floor_cast q
    omega
  rw [Int.log_of_one_le_right _ hq', Int.log_of_one_le_right _ hq, h4]

/-- C8: the deep severity score is `max(0, floor(log2(v / t)))` when
`v ≥ t` and `0` when `v < t`; with `volatility_threshold = 10` pips and
`pip_change = 25` it equals `1`. -/
theorem C8_deep_score_formula (thr pip : ℚ) (ht : 0 < thr) :
    (thr ≤ pip →
      volatilityScoreOf thr pip = max 0 ⌊Real.logb 2 ((pip : ℝ) / (thr : ℝ))⌋) ∧
    (pip < thr → volatilityScoreOf thr pip = 0) ∧
    volatilityScoreOf 10 25 = 1 := by
  refine ⟨?_, ?_, volatilityScoreOf_ten_twentyfive⟩
  · intro h
    unfold volatilityScoreOf
    rw [if_pos h]
    have hq : (1 : ℚ) ≤ pip / thr := (one_le_div ht).mpr h
    have hcast : ((pip / thr : ℚ) : ℝ) = (pip : ℝ) / (thr : ℝ) := by push_cast; ring
    rw [← hcast, show (2 : ℝ) = ((2 : ℕ) : ℝ) from by norm_num,
      Real.floor_logb_natCast (by exact_mod_cast le_trans zero_le_one hq),
      intLog_ratCast _ hq]
  · intro h
    unfold volatilityScoreOf
    rw [if_neg (not_le.mpr h)]

/-- Witness for C8 at Scenario E's numbers. -/
theorem C8_witness : volatilityScoreOf 10 25 = 1 :=
  (C8_deep_score_formula 10 25 (by norm_num)).2.2

/-! ## Eviction (C9) -/

theorem evictLoop_eq_drop (m : ℕ) :
    ∀ bs : List Bucket,
      BucketedSlidingAggregator.evictLoop m bs = bs.drop (bs.length - m) := by
  intro bs
  induction bs with
  | nil => simp [BucketedSlidingAggregator.evictLoop]
  | cons b rest ih =>
    unfold BucketedSlidingAggregator.evictLoop
    by_cases h : m < (b :: rest).length
    · rw [if_pos h, ih, show (b :: rest).length - m = (rest.length - m) + 1 from by
        simp at h ⊢; omega]
      rfl
    · rw [if_neg h, show (b :: rest).length - m = 0 from by simp at h ⊢; omega]
      rfl

theorem evictLoop_length (m : ℕ) (bs : List Bucket) :
    (BucketedSlidingAggregator.evictLoop m bs).length = min bs.length m := by
  rw [evictLoop_eq_drop, List.length_drop]
  omega

/-- The two possible outcomes of a successful `_condense_active_bucket`. -/
theorem condense_shape (a c : BucketedSlidingAggregator)
    (h : BucketedSlidingAggregator.condenseActiveBucket a = .ok c) :
    (c = a ∧ a.current_bucket_start = none) ∨
    (∃ bucket, c = ⟨a.bucket_span, a.max_window,
        BucketedSlidingAggregator.evictOldBuckets a.max_window (a.buckets ++ [bucket]),
        SlidingWindowMinMax.init 86400, a.current_bucket_start⟩) := by
  unfold BucketedSlidingAggregator.condenseActiveBucket at h
  split at h
  next hcbs => exact Or.inl ⟨(Except.ok.inj h).symm, hcbs⟩
  next cbs hcbs =>
    split at h
    next e hcr => exact absurd h (by simp)
    next bucket hcr => exact Or.inr ⟨bucket, (Except.ok.inj h).symm⟩

/-- A successful `add` keeps the bucket history within `max_window`, and
leaves `bucket_span`/`max_window` unchanged. -/
theorem add_buckets_le (m : ℕ) (a a' : BucketedSlidingAggregator) (t v : ℚ)
    (hmax : a.max_window = some m) (ha : a.buckets.length ≤ m)
    (h : a.add t v = .ok a') :
    a'.buckets.length ≤ m ∧ a'.max_window = some m ∧ a'.bucket_span = a.bucket_span := by
  simp only [BucketedSlidingAggregator.add] at h
  by_cases hs : BucketedSlidingAggregator.staleTimestamp a t
  · simp [hs] at h
  · simp only [hs, if_false, Bool.false_eq_true] at h
    by_cases hb : BucketedSlidingAggregator.isNewBucket a
        (BucketedSlidingAggregator.alignToBucketBoundary a.bucket_span t)
    · simp only [hb, if_true] at h
      cases hcb : BucketedSlidingAggregator.condenseActiveBucket a with
      | error e => rw [hcb] at h; simp at h
      | ok c =>
        rw [hcb] at h
        have hc : c.buckets.length ≤ m ∧ c.max_window = some m ∧
            c.bucket_span = a.bucket_span := by
          rcases condense_shape a c hcb with ⟨rfl, _⟩ | ⟨bucket, rfl⟩
          · exact ⟨ha, hmax, rfl⟩
          · refine ⟨?_, hmax, rfl⟩
            simp only [BucketedSlidingAggregator.evictOldBuckets, hmax]
            rw [evictLoop_length]
            exact Nat.min_le_right _ _
        simp only [reduceCtorEq, reduceIte] at h
        cases hw : SlidingWindowMinMax.add c.active_window t v with
        | error e => simp [hw] at h
        | ok w =>
          simp only [hw] at h
          obtain rfl : _ = a' := Except.ok.inj h
          exact ⟨hc.1, hc.2.1, hc.2.2⟩
    · simp only [hb, if_false, Bool.false_eq_true] at h
      by_cases hn : a.current_bucket_start = none <;>
        simp only [hn, if_true, if_false, reduceIte] at h <;>
        (cases hw : SlidingWindowMinMax.add a.active_window t v with
         | error e => simp [hw] at h
         | ok w =>
           simp only [hw] at h
           obtain rfl : _ = a' := Except.ok.inj h
           exact ⟨ha, hmax, rfl⟩)

/-- All aggregator states reached from a fresh aggregator with retention
`m` keep at most `m` condensed buckets. -/
theorem addAll_buckets_le (m : ℕ) :
    ∀ (ticks : List (ℚ × ℚ)) (a a' : BucketedSlidingAggregator),
      a.max_window = some m → a.buckets.length ≤ m →
      BucketedSlidingAggregator.addAll a ticks = .ok a' →
      a'.buckets.length ≤ m := by
  intro ticks
  induction ticks with
  | nil =>
    intro a a' _ ha h
    simp only [BucketedSlidingAggregator.addAll] at h
    obtain rfl : _ = a' := Except.ok.inj h
    exact ha
  | cons tv rest ih =>
    intro a a' hmax ha h
    obtain ⟨t, v⟩ := tv
    simp only [BucketedSlidingAggregator.addAll] at h
    cases hstep : a.add t v with
    | error e => rw [hstep] at h; simp at h
    | ok a1 =>
      rw [hstep] at h
      obtain ⟨h1, h2, _⟩ := add_buckets_le m a a1 t v hmax ha hstep
      exact ih a1 a' h2 h1 h

/-- C9: with `max_window` set, after every sequence of adds the retained
history never exceeds `max_window` buckets; eviction drops from the front
(oldest first); and in Scenario B (max_window 2, 1-minute span, adds at
minute offsets 0..3 with values 10, 20, 5, 7) the minute-0 bucket is gone
and `query_min_max(100)` sees min 5, max 20 with the evicted 10 absent. -/
theorem C9_retention_bound (span : ℚ) (m : ℕ) (ticks : List (ℚ × ℚ))
    (a : BucketedSlidingAggregator)
    (h : BucketedSlidingAggregator.addAll
      (BucketedSlidingAggregator.init span (some m)) ticks = .ok a) :
    a.buckets.length ≤ m ∧
    (∀ bs : List Bucket,
      BucketedSlidingAggregator.evictOldBuckets (some m) bs =
        bs.drop (bs.length - m)) ∧
    (BucketedSlidingAggregator.addAll (BucketedSlidingAggregator.init 60 (some 2))
        [(0, 10), (60, 20), (120, 5), (180, 7)]).map
        (fun st => (st.queryMinMax 100, st.buckets.map Bucket.start)) =
      .ok (.ok (some 5, some 20, 1), [60, 120]) := by
  refine ⟨addAll_buckets_le m ticks _ a rfl (by simp [BucketedSlidingAggregator.init]) h,
    fun bs => ?_, by decide⟩
  simp only [BucketedSlidingAggregator.evictOldBuckets]
  exact evictLoop_eq_drop m bs

/-- The aggregator state of Scenario B after all four adds. -/
def c9State : BucketedSlidingAggregator :=
  ⟨60, some 2, [⟨60, 120, some 20, some 20, 1⟩, ⟨120, 180, some 5, some 5, 1⟩],
    ⟨86400, [⟨0, 180, 7⟩], [⟨0, 180, 7⟩], [⟨0, 180, 7⟩], 1⟩, some 180⟩

/-- Witness for C9 at Scenario B. -/
theorem C9_witness : c9State.buckets.length ≤ 2 :=
  (C9_retention_bound 60 2 [(0, 10), (60, 20), (120, 5), (180, 7)] c9State (by decide)).1

/-! ## Sliding-window deque invariants (C10)

The monotonic candidate deques of `SlidingWindowMinMax` always satisfy: they
are drawn from the live points, their `pid`s are strictly increasing, the
front of the min (resp. max) deque is a lower (resp. upper) bound for every
no-older point, and their last entry is the most recently added point. -/

theorem getLast?_mem {α : Type} {l : List α} {a : α} (h : l.getLast? = some a) :
    a ∈ l := by
  rcases List.mem_getLast?_eq_getLast (Option.mem_def.mpr h) with ⟨hne, rfl⟩
  exact List.getLast_mem hne

theorem pairwise_le_getLast {l : List WindowPoint}
    (hp : l.Pairwise (fun x y => x.pid < y.pid)) (c : WindowPoint) (hc : c ∈ l)
    (h : l ≠ []) : c.pid ≤ (l.getLast h).pid := by
  induction l with
  | nil => cases hc
  | cons a rest ih =>
    cases rest with
    | nil =>
      simp at hc
      subst hc
      simp [List.getLast]
    | cons b tl =>
      rw [List.getLast_cons (by simp)]
      rcases List.mem_cons.mp hc with rfl | hc'
      · have hlt : c.pid < (List.getLast (b :: tl) (by simp)).pid :=
          (List.pairwise_cons.mp hp).1 _ (List.getLast_mem (by simp))
        omega
      · exact ih (List.pairwise_cons.mp hp).2 hc' (by simp)

theorem dropBackWhile_sublist (p : WindowPoint → Bool) (l : List WindowPoint) :
    List.Sublist (SlidingWindowMinMax.dropBackWhile p l) l := by
  unfold SlidingWindowMinMax.dropBackWhile
  have h := (List.dropWhile_sublist _ :
    List.Sublist (l.reverse.dropWhile p) l.reverse).reverse
  rwa [List.reverse_reverse] at h

theorem dropBackWhile_getLast_not (p : WindowPoint → Bool) (l : List WindowPoint)
    {a : WindowPoint}
    (h : (SlidingWindowMinMax.dropBackWhile p l).getLast? = some a) :
    p a = false := by
  unfold SlidingWindowMinMax.dropBackWhile at h
  rw [List.getLast?_reverse] at h
  have h2 := List.head?_dropWhile_not p l.reverse
  rw [h] at h2
  simpa using h2

theorem dropBackWhile_dropped (p : WindowPoint → Bool) (l : List WindowPoint) :
    ∃ tail, l = SlidingWindowMinMax.dropBackWhile p l ++ tail ∧
      ∀ x ∈ tail, p x = true := by
  refine ⟨(l.reverse.takeWhile p).reverse, ?_, ?_⟩
  · unfold SlidingWindowMinMax.dropBackWhile
    rw [← List.reverse_append, List.takeWhile_append_dropWhile, List.reverse_reverse]
  · intro x hx
    rw [List.mem_reverse] at hx
    exact List.mem_takeWhile_imp hx

/-- The deque invariant of `SlidingWindowMinMax`, over the raw
`(points, min_candidates, max_candidates)` lists and the fresh-`pid`
counter. -/
structure DequeInv (nid : ℕ) (pts mins maxs : List WindowPoint) : Prop where
  pid_lt : ∀ p ∈ pts, p.pid < nid
  pid_inc : pts.Pairwise (fun x y => x.pid < y.pid)
  mins_sub : ∀ c ∈ mins, c ∈ pts
  maxs_sub : ∀ c ∈ maxs, c ∈ pts
  mins_inc : mins.Pairwise (fun x y => x.pid < y.pid)
  maxs_inc : maxs.Pairwise (fun x y => x.pid < y.pid)
  mins_le : ∀ c ∈ mins, ∀ p ∈ pts, c.pid ≤ p.pid → c.value ≤ p.value
  maxs_ge : ∀ c ∈ maxs, ∀ p ∈ pts, c.pid ≤ p.pid → p.value ≤ c.value
  mins_last : mins.getLast? = pts.getLast?
  maxs_last : maxs.getLast? = pts.getLast?

/-- The invariant of a `SlidingWindowMinMax` state. -/
def WInv (w : SlidingWindowMinMax) : Prop :=
  DequeInv w.nextId w.points w.minCandidates w.maxCandidates

theorem winv_init (window : ℚ) : WInv (SlidingWindowMinMax.init window) := by
  constructor <;> simp [SlidingWindowMinMax.init]

/-- Appending the fresh point (with the monotonic back-popping) preserves
the deque invariant, before expiry runs. -/
theorem dequeInv_append (nid : ℕ) (pts mins maxs : List WindowPoint)
    (inv : DequeInv nid pts mins maxs) (ts v : ℚ) :
    DequeInv (nid + 1) (pts ++ [⟨nid, ts, v⟩])
      (SlidingWindowMinMax.dropBackWhile (fun c => v ≤ c.value) mins ++ [⟨nid, ts, v⟩])
      (SlidingWindowMinMax.dropBackWhile (fun c => c.value ≤ v) maxs ++ [⟨nid, ts, v⟩]) := by
  set z : WindowPoint := ⟨nid, ts, v⟩ with hz
  set keptMin := SlidingWindowMinMax.dropBackWhile (fun c => v ≤ c.value) mins with hkm
  set keptMax := SlidingWindowMinMax.dropBackWhile (fun c => c.value ≤ v) maxs with hkM
  have hkm_sub : List.Sublist keptMin mins := dropBackWhile_sublist _ _
  have hkM_sub : List.Sublist keptMax maxs := dropBackWhile_sublist _ _
  have hmem_min : ∀ c ∈ keptMin, c ∈ pts := fun c hc =>
    inv.mins_sub c (hkm_sub.subset hc)
  have hmem_max : ∀ c ∈ keptMax, c ∈ pts := fun c hc =>
    inv.maxs_sub c (hkM_sub.subset hc)
  -- every kept min candidate is < v; every kept max candidate is > v
  have hlt_min : ∀ c ∈ keptMin, c.value < v := by
    intro c hc
    have hne : keptMin ≠ [] := fun hh => by rw [hh] at hc; cases hc
    have hlast := List.getLast?_eq_getLast_of_ne_nil hne
    have hfail := dropBackWhile_getLast_not (fun c => v ≤ c.value) mins hlast
    have hlastval : (keptMin.getLast hne).value < v := by
      simpa using hfail
    have hpidle : c.pid ≤ (keptMin.getLast hne).pid :=
      pairwise_le_getLast (inv.mins_inc.sublist hkm_sub) c hc hne
    have hvalle : c.value ≤ (keptMin.getLast hne).value :=
      inv.mins_le c (hkm_sub.subset hc) _
        (inv.mins_sub _ (hkm_sub.subset (List.getLast_mem hne))) hpidle
    linarith
  have hgt_max : ∀ c ∈ keptMax, v < c.value := by
    intro c hc
    have hne : keptMax ≠ [] := fun hh => by rw [hh] at hc; cases hc
    have hlast := List.getLast?_eq_getLast_of_ne_nil hne
    have hfail := dropBackWhile_getLast_not (fun c => c.value ≤ v) maxs hlast
    have hlastval : v < (keptMax.getLast hne).value := by
      simpa using hfail
    have hpidle : c.pid ≤ (keptMax.getLast hne).pid :=
      pairwise_le_getLast (inv.maxs_inc.sublist hkM_sub) c hc hne
    have hvalge : (keptMax.getLast hne).value ≤ c.value :=
      inv.maxs_ge c (hkM_sub.subset hc) _
        (inv.maxs_sub _ (hkM_sub.subset (List.getLast_mem hne))) hpidle
    linarith
  constructor
  · intro p hp
    rcases List.mem_append.mp hp with hp | hp
    · have := inv.pid_lt p hp; omega
    · simp at hp; subst hp; simp [hz]
  · refine List.pairwise_append.mpr ⟨inv.pid_inc, by simp, ?_⟩
    intro a ha b hb
    simp at hb; subst hb
    have := inv.pid_lt a ha
    simpa [hz] using this
  · intro c hc
    rcases List.mem_append.mp hc with hc | hc
    · exact List.mem_append_left _ (hmem_min c hc)
    · simp at hc; subst hc; exact List.mem_append_right _ (by simp)
  · intro c hc
    rcases List.mem_append.mp hc with hc | hc
    · exact List.mem_append_left _ (hmem_max c hc)
    · simp at hc; subst hc; exact List.mem_append_right _ (by simp)
  · refine List.pairwise_append.mpr ⟨inv.mins_inc.sublist hkm_sub, by simp, ?_⟩
    intro a ha b hb
    simp at hb; subst hb
    have := inv.pid_lt a (hmem_min a ha)
    simpa [hz] using this
  · refine List.pairwise_append.mpr ⟨inv.maxs_inc.sublist hkM_sub, by simp, ?_⟩
    intro a ha b hb
    simp at hb; subst hb
    have := inv.pid_lt a (hmem_max a ha)
    simpa [hz] using this
  · intro c hc p hp hcp
    rcases List.mem_append.mp hc with hc | hc
    · rcases List.mem_append.mp hp with hp | hp
      · exact inv.mins_le c (hkm_sub.subset hc) p hp hcp
      · simp at hp; subst hp
        exact le_of_lt (hlt_min c hc)
    · simp at hc; subst hc
      rcases List.mem_append.mp hp with hp | hp
      · have := inv.pid_lt p hp
        simp [hz] at hcp
        omega
      · simp at hp; subst hp
        exact le_refl _
  · intro c hc p hp hcp
    rcases List.mem_append.mp hc with hc | hc
    · rcases List.mem_append.mp hp with hp | hp
      · exact inv.maxs_ge c (hkM_sub.subset hc) p hp hcp
      · simp at hp; subst hp
        exact le_of_lt (hgt_max c hc)
    · simp at hc; subst hc
      rcases List.mem_append.mp hp with hp | hp
      · have := inv.pid_lt p hp
        simp [hz] at hcp
        omega
      · simp at hp; subst hp
        exact le_refl _
  · rw [List.getLast?_concat, List.getLast?_concat]
  · rw [List.getLast?_concat, List.getLast?_concat]

/-- Popping one expired point from the front (and, if it is the front of a
candidate deque, that front too) preserves the candidate-deque facts.
Stated for one candidate list; used for both deques. -/
theorem candTail (q : WindowPoint) (rest cands : List WindowPoint)
    (hpts : (q :: rest).Pairwise (fun x y => x.pid < y.pid))
    (sub : ∀ c ∈ cands, c ∈ q :: rest)
    (cinc : cands.Pairwise (fun x y => x.pid < y.pid))
    (clast : cands.getLast? = (q :: rest).getLast?) :
    (∀ c ∈ SlidingWindowMinMax.popFrontIfPid q cands, c ∈ rest ∧ c ∈ cands) ∧
    (SlidingWindowMinMax.popFrontIfPid q cands).Pairwise (fun x y => x.pid < y.pid) ∧
    (SlidingWindowMinMax.popFrontIfPid q cands).getLast? = rest.getLast? := by
  have hqmin : ∀ x ∈ rest, q.pid < x.pid := (List.pairwise_cons.mp hpts).1
  cases cands with
  | nil =>
    exfalso
    rw [List.getLast?_eq_getLast_of_ne_nil (List.cons_ne_nil q rest)] at clast
    exact Option.noConfusion clast
  | cons m ms =>
    have hm : m ∈ q :: rest := sub m (List.mem_cons_self m ms)
    have hmlt : ∀ c ∈ ms, m.pid < c.pid := (List.pairwise_cons.mp cinc).1
    unfold SlidingWindowMinMax.popFrontIfPid
    by_cases hpid : m.pid = q.pid
    · have hmq : m = q := by
        rcases List.mem_cons.mp hm with rfl | hm'
        · rfl
        · exact absurd hpid (by have := hqmin m hm'; omega)
      simp only [if_pos hpid]
      refine ⟨?_, (List.pairwise_cons.mp cinc).2, ?_⟩
      · intro c hc
        refine ⟨?_, List.mem_cons_of_mem m hc⟩
        have hcpts : c ∈ q :: rest := sub c (List.mem_cons_of_mem m hc)
        rcases List.mem_cons.mp hcpts with rfl | hcr
        · exact absurd (hmlt c hc) (by rw [hmq]; omega)
        · exact hcr
      · cases rest with
        | nil =>
          cases ms with
          | nil => rfl
          | cons b tl =>
            exfalso
            rw [List.getLast?_cons_cons] at clast
            simp only [List.getLast?_singleton] at clast
            have hqmem : q ∈ b :: tl := getLast?_mem clast
            have := hmlt q hqmem
            rw [hmq] at this
            omega
        | cons r rs =>
          rw [List.getLast?_cons_cons] at clast
          cases ms with
          | nil =>
            exfalso
            simp only [List.getLast?_singleton] at clast
            have hLmem : m ∈ r :: rs := getLast?_mem clast.symm
            have := hqmin m hLmem
            omega
          | cons b tl =>
            rw [List.getLast?_cons_cons] at clast
            exact clast
    · have hqnot : q ∉ m :: ms := by
        intro hq
        rcases List.mem_cons.mp hq with hq' | hq'
        · exact hpid (by rw [hq'])
        · have h1 := hmlt q hq'
          rcases List.mem_cons.mp hm with rfl | hm'
          · exact hpid rfl
          · have := hqmin m hm'; omega
      simp only [if_neg hpid]
      refine ⟨?_, cinc, ?_⟩
      · intro c hc
        refine ⟨?_, hc⟩
        have hcpts : c ∈ q :: rest := sub c hc
        rcases List.mem_cons.mp hcpts with rfl | hcr
        · exact absurd hc hqnot
        · exact hcr
      · cases rest with
        | nil =>
          exfalso
          rcases List.mem_cons.mp hm with rfl | hm'
          · exact hpid rfl
          · cases hm'
        | cons r rs =>
          rw [List.getLast?_cons_cons] at clast
          exact clast

/-- One expiry step preserves the deque invariant. -/
theorem dequeInv_tail (nid : ℕ) (q : WindowPoint) (rest mins maxs : List WindowPoint)
    (inv : DequeInv nid (q :: rest) mins maxs) :
    DequeInv nid rest (SlidingWindowMinMax.popFrontIfPid q mins)
      (SlidingWindowMinMax.popFrontIfPid q maxs) := by
  obtain ⟨hsubm, hincm, hlastm⟩ :=
    candTail q rest mins inv.pid_inc inv.mins_sub inv.mins_inc inv.mins_last
  obtain ⟨hsubM, hincM, hlastM⟩ :=
    candTail q rest maxs inv.pid_inc inv.maxs_sub inv.maxs_inc inv.maxs_last
  constructor
  · exact fun p hp => inv.pid_lt p (List.mem_cons_of_mem q hp)
  · exact (List.pairwise_cons.mp inv.pid_inc).2
  · exact fun c hc => (hsubm c hc).1
  · exact fun c hc => (hsubM c hc).1
  · exact hincm
  · exact hincM
  · exact fun c hc p hp hcp =>
      inv.mins_le c (hsubm c hc).2 p (List.mem_cons_of_mem q hp) hcp
  · exact fun c hc p hp hcp =>
      inv.maxs_ge c (hsubM c hc).2 p (List.mem_cons_of_mem q hp) hcp
  · exact hlastm
  · exact hlastM

/-- The expiry loop preserves the deque invariant. -/
theorem dequeInv_expire (nid : ℕ) (cutoff : ℚ) :
    ∀ (pts mins maxs : List WindowPoint), DequeInv nid pts mins maxs →
      DequeInv nid (SlidingWindowMinMax.expireLoop cutoff pts mins maxs).1
        (SlidingWindowMinMax.expireLoop cutoff pts mins maxs).2.1
        (SlidingWindowMinMax.expireLoop cutoff pts mins maxs).2.2 := by
  intro pts
  induction pts with
  | nil =>
    intro mins maxs inv
    simpa only [SlidingWindowMinMax.expireLoop] using inv
  | cons q rest ih =>
    intro mins maxs inv
    unfold SlidingWindowMinMax.expireLoop
    by_cases h : q.timestamp ≤ cutoff
    · rw [if_pos h]
      exact ih _ _ (dequeInv_tail nid q rest mins maxs inv)
    · rw [if_neg h]
      exact inv

/-- `SlidingWindowMinMax.add` preserves the window invariant. -/
theorem winv_add {w w' : SlidingWindowMinMax} {ts v : ℚ} (hw : WInv w)
    (h : w.add ts v = .ok w') : WInv w' := by
  simp only [SlidingWindowMinMax.add] at h
  split at h
  · exact absurd h (by simp)
  · obtain rfl : _ = w' := Except.ok.inj h
    exact dequeInv_expire _ _ _ _ _ (dequeInv_append w.nextId _ _ _ hw ts v)

/-- The active window fed by `BucketedSlidingAggregator.add` is either the
previous active window or a freshly reset one. -/
theorem add_window_source (a a' : BucketedSlidingAggregator) (t v : ℚ)
    (h : a.add t v = .ok a') :
    ∃ ws, SlidingWindowMinMax.add ws t v = .ok a'.active_window ∧
      (ws = a.active_window ∨ ws = SlidingWindowMinMax.init 86400) := by
  simp only [BucketedSlidingAggregator.add] at h
  by_cases hs : BucketedSlidingAggregator.staleTimestamp a t
  · simp [hs] at h
  · simp only [hs, if_false, Bool.false_eq_true] at h
    by_cases hb : BucketedSlidingAggregator.isNewBucket a
        (BucketedSlidingAggregator.alignToBucketBoundary a.bucket_span t)
    · simp only [hb, if_true] at h
      cases hcb : BucketedSlidingAggregator.condenseActiveBucket a with
      | error e => rw [hcb] at h; simp at h
      | ok c =>
        rw [hcb] at h
        simp only [reduceCtorEq, reduceIte] at h
        cases hw : SlidingWindowMinMax.add c.active_window t v with
        | error e => simp [hw] at h
        | ok w =>
          simp only [hw] at h
          obtain rfl : _ = a' := Except.ok.inj h
          refine ⟨c.active_window, hw, ?_⟩
          rcases condense_shape a c hcb with ⟨rfl, _⟩ | ⟨bucket, rfl⟩
          · exact Or.inl rfl
          · exact Or.inr rfl
    · simp only [hb, if_false, Bool.false_eq_true] at h
      by_cases hn : a.current_bucket_start = none <;>
        simp only [hn, if_true, if_false, reduceIte] at h <;>
        (cases hw : SlidingWindowMinMax.add a.active_window t v with
         | error e => simp [hw] at h
         | ok w =>
           simp only [hw] at h
           obtain rfl : _ = a' := Except.ok.inj h
           exact ⟨a.active_window, hw, Or.inl rfl⟩)

/-- Every reachable aggregator state has a valid active window. -/
theorem reachable_winv (a : BucketedSlidingAggregator)
    (h : BucketedSlidingAggregator.Reachable a) : WInv a.active_window := by
  obtain ⟨span, maxw, ticks, _, hadd⟩ := h
  have H : ∀ (ticks : List (ℚ × ℚ)) (b a : BucketedSlidingAggregator),
      WInv b.active_window →
      BucketedSlidingAggregator.addAll b ticks = .ok a → WInv a.active_window := by
    intro ticks
    induction ticks with
    | nil =>
      intro b a hb h
      simp only [BucketedSlidingAggregator.addAll] at h
      obtain rfl : _ = a := Except.ok.inj h
      exact hb
    | cons tv rest ih =>
      intro b a hb h
      obtain ⟨t, v⟩ := tv
      simp only [BucketedSlidingAggregator.addAll] at h
      cases hstep : b.add t v with
      | error e => rw [hstep] at h; simp at h
      | ok b1 =>
        rw [hstep] at h
        obtain ⟨ws, hws, hsrc⟩ := add_window_source b b1 t v hstep
        have hwinv : WInv b1.active_window := by
          rcases hsrc with rfl | rfl
          · exact winv_add hb hws
          · exact winv_add (winv_init 86400) hws
        exact ih b1 a hwinv h
  exact H ticks _ a (winv_init 86400) hadd

/-- The front of the min deque never exceeds the front of the max deque. -/
theorem winv_heads_le (w : SlidingWindowMinMax) (hw : WInv w)
    (m M : WindowPoint) (hm : w.minCandidates.head? = some m)
    (hM : w.maxCandidates.head? = some M) : m.value ≤ M.value := by
  have hmm : m ∈ w.minCandidates := List.mem_of_mem_head? (Option.mem_def.mpr hm)
  have hMM : M ∈ w.maxCandidates := List.mem_of_mem_head? (Option.mem_def.mpr hM)
  rcases le_total m.pid M.pid with hle | hle
  · exact hw.mins_le m hmm M (hw.maxs_sub M hMM) hle
  · exact hw.maxs_ge M hMM m (hw.mins_sub m hmm) hle

/-- C10: in every reachable aggregator whose active window's current
minimum point and current maximum point carry the same timestamp,
`get_active_direction` returns `max_value - min_value`, which is
non-negative; in particular a single-point active window yields
direction 0. -/
theorem C10_equal_timestamp_direction (a : BucketedSlidingAggregator)
    (hr : BucketedSlidingAggregator.Reachable a) (m M : WindowPoint)
    (hm : a.active_window.minCandidates.head? = some m)
    (hM : a.active_window.maxCandidates.head? = some M)
    (hts : m.timestamp = M.timestamp) :
    a.getActiveDirection = .ok (M.value - m.value) ∧
      0 ≤ M.value - m.value ∧
      (∀ p, a.active_window.points = [p] → a.getActiveDirection = .ok 0) := by
  have hw := reachable_winv a hr
  have hdir : a.getActiveDirection = .ok (M.value - m.value) := by
    simp only [BucketedSlidingAggregator.getActiveDirection,
      BucketedSlidingAggregator.getActiveWindowStats, hm, hM,
      BucketedSlidingAggregator.computeDirection]
    rw [hts, if_pos (le_refl M.timestamp)]
  have hle : m.value ≤ M.value := winv_heads_le _ hw m M hm hM
  refine ⟨hdir, by linarith, ?_⟩
  intro p hp
  have hmmem : m ∈ a.active_window.minCandidates :=
    List.mem_of_mem_head? (Option.mem_def.mpr hm)
  have hMmem : M ∈ a.active_window.maxCandidates :=
    List.mem_of_mem_head? (Option.mem_def.mpr hM)
  have hmp : m = p := by
    have := hw.mins_sub m hmmem
    rw [hp] at this
    simpa using this
  have hMp : M = p := by
    have := hw.maxs_sub M hMmem
    rw [hp] at this
    simpa using this
  rw [hdir, hmp, hMp, sub_self]

/-- The aggregator state after a single `add(0, 10)` into a fresh 1-minute
aggregator. -/
def c10State : BucketedSlidingAggregator :=
  ⟨60, none, [], ⟨86400, [⟨0, 0, 10⟩], [⟨0, 0, 10⟩], [⟨0, 0, 10⟩], 1⟩, some 0⟩

/-- Witness for C10: the single-point window has direction `10 - 10 = 0`. -/
theorem C10_witness : c10State.getActiveDirection = .ok ((10 : ℚ) - 10) :=
  (C10_equal_timestamp_direction c10State
    ⟨60, none, [(0, 10)], by norm_num, by decide⟩
    ⟨0, 0, 10⟩ ⟨0, 0, 10⟩ rfl rfl rfl).1

end Proofs

end ZmqNotifier
